import Mathlib

/-!
# Verification of the goset set container

Shallow embedding of the `goset` package (file `set.go`, current generic
variant).  A Go `Set[T]` value holds a reference to a shared hash map, so
`Set` values alias: `Add` mutates the map in place while `Clone`, `Union`,
`Intersect` and `Minus` allocate fresh maps.  We model the collection of
live maps as a `Heap` (a list of key lists indexed by allocation order) and
a `Set` value as a reference into that heap plus the optional comparator.

A Go map's key set is duplicate-free; one map is modelled as its list of
keys, kept duplicate-free by `mapInsert`.  Go randomizes map iteration
order, so where a claim depends on the enumeration order produced by
`AsList`, the theorem quantifies over an arbitrary permutation of the
stored key list.
-/

namespace Goset

variable {T : Type} [DecidableEq T]

/-- One Go `map[T]struct{}` is its list of keys.  `m[k] = exists` adds the
key only when absent, keeping the key list duplicate-free. -/
def mapInsert (l : List T) (x : T) : List T :=
  if x ∈ l then l else l ++ [x]

/-- `for _, entry := range members { m[entry] = exists }`. -/
def insertAll (l : List T) (ms : List T) : List T :=
  ms.foldl mapInsert l

/-- `type Set[T comparable] struct { members map[T]struct{}; comparator Comparator[T] }`.
The map is heap-allocated; `ref` is its address. -/
structure GoSet (T : Type) where
  ref : Nat
  comparator : Option (T → T → Bool)

/-- The collection of all allocated maps, indexed by allocation order. -/
structure Heap (T : Type) where
  store : List (List T)

/-- Reading the map at reference `r` (a dangling reference reads as empty). -/
def Heap.read (h : Heap T) (r : Nat) : List T :=
  h.store.getD r []

/-- Overwriting the map at reference `r`. -/
def Heap.write (h : Heap T) (r : Nat) (l : List T) : Heap T :=
  ⟨h.store.set r l⟩

/-- `s` points to a live map of `h`. -/
def Heap.valid (h : Heap T) (s : GoSet T) : Prop :=
  s.ref < h.store.length

/-- The heap invariant: every allocated map has a duplicate-free key list,
as Go map semantics guarantee. -/
def Heap.WF (h : Heap T) : Prop :=
  ∀ l ∈ h.store, l.Nodup

instance (h : Heap T) (s : GoSet T) : Decidable (h.valid s) :=
  inferInstanceAs (Decidable (s.ref < h.store.length))

instance (h : Heap T) : Decidable h.WF :=
  inferInstanceAs (Decidable (∀ l ∈ h.store, l.Nodup))

/-- `New(members...)`: allocate an empty map, add each member, comparator nil. -/
def New (h : Heap T) (members : List T) : Heap T × GoSet T :=
  (⟨h.store ++ [insertAll [] members]⟩, ⟨h.store.length, none⟩)

/-- `NewWithComparator(cmp, members...)`: as `New` but storing `cmp`. -/
def NewWithComparator (h : Heap T) (cmp : T → T → Bool) (members : List T) :
    Heap T × GoSet T :=
  (⟨h.store ++ [insertAll [] members]⟩, ⟨h.store.length, some cmp⟩)

/-- `Add(members...)`: insert each member into the receiver's map and return
the same receiver (the map is mutated in place, not copied). -/
def Add (h : Heap T) (s : GoSet T) (members : List T) : Heap T × GoSet T :=
  (h.write s.ref (insertAll (h.read s.ref) members), s)

/-- `Contains(values...)`: true iff every given value is a key of the map. -/
def Contains (h : Heap T) (s : GoSet T) (values : List T) : Bool :=
  values.all fun v => decide (v ∈ h.read s.ref)

/-- `Count()`: `len(theSet.members)`. -/
def Count (h : Heap T) (s : GoSet T) : Nat :=
  (h.read s.ref).length

/-- `AsList()`: the keys of the map (order unspecified in Go; this returns
the canonical stored order, and theorems that depend on iteration order
quantify over permutations of it). -/
def AsList (h : Heap T) (s : GoSet T) : List T :=
  h.read s.ref

/-- `Equals(other)`: false on differing cardinality, else every entry of the
receiver's list must be contained in `other`. -/
def Equals (h : Heap T) (a other : GoSet T) : Bool :=
  if Count h a ≠ Count h other then false
  else (AsList h a).all fun entry => Contains h other [entry]

/-- `sort.SliceStable(asList, isLess)`: the stable sort determined by the
less-than predicate `less`.  A stable sort's output is the unique
permutation that is both sorted and stable, so we model it by stable
insertion sort ordered by `fun a b => !(less b a)` ("a need not come after
b"). -/
def sliceStable (less : T → T → Bool) (l : List T) : List T :=
  l.insertionSort fun a b => !(less b a)

/-- Modelled from the spec: `sortComparable` (defined in a file of the
repository that is not among the sources; only its callers are) sorts a
slice by the natural order of `T`. -/
def sortComparable [LinearOrder T] (l : List T) : List T :=
  l.insertionSort (· ≤ ·)

/-- The sort `AsSortedList` applies to one enumeration of the members:
the stored comparator as less-than under a stable sort when present,
otherwise the natural-order fallback. -/
def sortEnum [LinearOrder T] (comparator : Option (T → T → Bool))
    (asList : List T) : List T :=
  match comparator with
  | some cmp => sliceStable cmp asList
  | none => sortComparable asList

/-- `AsSortedList()`: sort the enumeration produced by `AsList`. -/
def AsSortedList [LinearOrder T] (h : Heap T) (s : GoSet T) : List T :=
  sortEnum s.comparator (AsList h s)

/-- `Intersect(other)`: collect the receiver's members contained in `other`,
then build a fresh set from them via `New`. -/
def Intersect (h : Heap T) (a other : GoSet T) : Heap T × GoSet T :=
  New h ((AsList h a).filter fun member => Contains h other [member])

/-- `Minus(other)`: allocate an empty set, then `Add` each receiver member
not contained in `other`, threading the heap through the loop. -/
def Minus (h : Heap T) (a other : GoSet T) : Heap T × GoSet T :=
  let p := New h ([] : List T)
  ((AsList h a).foldl
      (fun hc member =>
        if Contains hc other [member] then hc else (Add hc p.2 [member]).1)
      p.1,
    p.2)

/-- `Clone()`: `New(theSet.AsList()...)`. -/
def Clone (h : Heap T) (s : GoSet T) : Heap T × GoSet T :=
  New h (AsList h s)

/-- `Union(other)`: clone the receiver, then `Add` all of `other`'s members. -/
def Union (h : Heap T) (a other : GoSet T) : Heap T × GoSet T :=
  let p := Clone h a
  Add p.1 p.2 (AsList p.1 other)

/-- The member loop of `String()`: `%v` of each member with `", "` written
after every member but the last.  (`%v` of a string is the string itself.) -/
def renderMembers : List String → String
  | [] => ""
  | [x] => x
  | x :: y :: xs => x ++ ", " ++ renderMembers (y :: xs)

/-- `fmt.Sprintf("%T", theSet)` for `Set[string]` in package `goset`, as
pinned by the repository's test `TestSet_String`. -/
def stringTypeTag : String := "goset.Set[string]"

/-- The method `String()` at element type `string`: the `%T` type tag, an
opening brace, the comma-space separated sorted members, a closing brace. -/
def SetString (h : Heap String) (s : GoSet String) : String :=
  stringTypeTag ++ "\x7b" ++ renderMembers (AsSortedList h s) ++ "\x7d"

/-! ### Basic facts about map insertion -/

theorem mem_mapInsert {l : List T} {x y : T} :
    y ∈ mapInsert l x ↔ y ∈ l ∨ y = x := by
  unfold mapInsert
  split
  · rename_i hx
    constructor
    · exact Or.inl
    · rintro (hy | rfl)
      · exact hy
      · exact hx
  · simp

theorem nodup_mapInsert {l : List T} (hl : l.Nodup) (x : T) :
    (mapInsert l x).Nodup := by
  unfold mapInsert
  split
  · exact hl
  · rename_i hx
    simpa using List.Nodup.append hl (List.nodup_singleton x) (by simpa using hx)

theorem mem_insertAll {init ms : List T} {y : T} :
    y ∈ insertAll init ms ↔ y ∈ init ∨ y ∈ ms := by
  induction ms generalizing init with
  | nil => simp [insertAll]
  | cons m ms ih =>
    show y ∈ insertAll (mapInsert init m) ms ↔ _
    rw [ih, mem_mapInsert]
    simp only [List.mem_cons]
    tauto

theorem nodup_insertAll {init ms : List T} (hl : init.Nodup) :
    (insertAll init ms).Nodup := by
  induction ms generalizing init with
  | nil => exact hl
  | cons m ms ih => exact ih (nodup_mapInsert hl m)

theorem insertAll_eq_append {init ms : List T} (h : (init ++ ms).Nodup) :
    insertAll init ms = init ++ ms := by
  induction ms generalizing init with
  | nil => simp [insertAll]
  | cons m ms ih =>
    show insertAll (mapInsert init m) ms = _
    have hmem : m ∉ init := by
      intro hc
      exact (List.disjoint_of_nodup_append h) hc (List.mem_cons_self m ms)
    have : mapInsert init m = init ++ [m] := by
      unfold mapInsert
      exact if_neg hmem
    rw [this]
    have h' : ((init ++ [m]) ++ ms).Nodup := by
      simpa using h
    rw [ih h']
    simp

theorem insertAll_nil_of_nodup {ms : List T} (h : ms.Nodup) :
    insertAll [] ms = ms := by
  simpa using insertAll_eq_append (show (([] : List T) ++ ms).Nodup by simpa using h)

/-! ### Basic facts about heap reads and writes -/

theorem read_append_lt (h : Heap T) (l : List T) {r : Nat}
    (hr : r < h.store.length) :
    Heap.read ⟨h.store ++ [l]⟩ r = h.read r := by
  simp [Heap.read, List.getD_eq_getElem?_getD, List.getElem?_append_left hr]

theorem read_append_self (h : Heap T) (l : List T) :
    Heap.read ⟨h.store ++ [l]⟩ h.store.length = l := by
  simp [Heap.read, List.getD_eq_getElem?_getD, List.getElem?_append_right (Nat.le_refl _)]

theorem read_write_self (h : Heap T) {r : Nat} (l : List T)
    (hr : r < h.store.length) :
    (h.write r l).read r = l := by
  simp [Heap.read, Heap.write, List.getD_eq_getElem?_getD, List.getElem?_set_self hr]

theorem read_write_ne (h : Heap T) {r r' : Nat} (l : List T) (hne : r' ≠ r) :
    (h.write r l).read r' = h.read r' := by
  simp [Heap.read, Heap.write, List.getD_eq_getElem?_getD,
    List.getElem?_set_ne (Ne.symm hne)]

theorem read_nodup {h : Heap T} (hw : h.WF) (r : Nat) : (h.read r).Nodup := by
  unfold Heap.read
  rcases hml : h.store[r]? with _ | l
  · simp [List.getD_eq_getElem?_getD, hml]
  · rw [List.getD_eq_getElem?_getD, hml]
    exact hw l (List.getElem?_mem hml)

/-! ### Characterisations of `Contains` and `Equals` -/

theorem contains_singleton {h : Heap T} {s : GoSet T} {x : T} :
    Contains h s [x] = true ↔ x ∈ AsList h s := by
  simp [Contains, AsList]

theorem equals_true_iff {h : Heap T} {a b : GoSet T}
    (hna : (AsList h a).Nodup) (hnb : (AsList h b).Nodup) :
    Equals h a b = true ↔ ∀ x, x ∈ AsList h a ↔ x ∈ AsList h b := by
  constructor
  · intro he
    unfold Equals at he
    split at he
    · exact absurd he (by simp)
    · rename_i hcount
      have hlen : (AsList h a).length = (AsList h b).length := by
        simpa [Count, AsList] using not_ne_iff.mp hcount
      have hsub : AsList h a ⊆ AsList h b := by
        intro x hx
        have := (List.all_eq_true.mp he) x hx
        simpa [Contains, AsList] using this
      have hperm : (AsList h a).Perm (AsList h b) :=
        (List.subperm_of_subset hna hsub).perm_of_length_le (le_of_eq hlen.symm)
      exact fun x => hperm.mem_iff
  · intro hmem
    have hperm : (AsList h a).Perm (AsList h b) :=
      (List.perm_ext_iff_of_nodup hna hnb).mpr hmem
    unfold Equals
    rw [if_neg]
    · exact List.all_eq_true.mpr fun x hx => by
        simpa [Contains, AsList] using (hmem x).mp hx
    · simpa [Count, AsList] using hperm.length_eq

theorem mem_mapInsert_self (l : List T) (x : T) : x ∈ mapInsert l x := by
  unfold mapInsert
  split
  · assumption
  · simp

theorem mapInsert_of_mem {l : List T} {x : T} (hx : x ∈ l) :
    mapInsert l x = l :=
  if_pos hx

theorem write_store_length (h : Heap T) (r : Nat) (l : List T) :
    (h.write r l).store.length = h.store.length := by
  simp [Heap.write]

theorem read_out_of_range (h : Heap T) {r : Nat} (hr : ¬ r < h.store.length) :
    h.read r = [] := by
  simp [Heap.read, List.getD_eq_getElem?_getD, List.getElem?_eq_none (Nat.le_of_not_lt hr)]

theorem write_out_of_range (h : Heap T) {r : Nat} (l : List T)
    (hr : ¬ r < h.store.length) : h.write r l = h := by
  simp [Heap.write, List.set_eq_of_length_le (Nat.le_of_not_lt hr)]

/-! ### Claim theorems -/

/-- C8: `Contains(values...)` returns true iff every given value is a member
of the set; with zero arguments it returns true on every set, including the
empty set. -/
theorem contains_all_iff_and_vacuous (h : Heap T) (s : GoSet T) (vs : List T) :
    (Contains h s vs = true ↔ ∀ v ∈ vs, v ∈ AsList h s)
    ∧ Contains h s ([] : List T) = true :=
  ⟨by simp [Contains, AsList], rfl⟩

/-- C9: adding an element twice leaves `Count()` the same after the second
call as after the first, and `Add` returns the very receiver it mutated in
place, not a copy. -/
theorem add_twice_count_unchanged (h : Heap T) (s : GoSet T) (x : T) :
    (Add h s [x]).2 = s
    ∧ Count (Add (Add h s [x]).1 s [x]).1 s = Count (Add h s [x]).1 s := by
  refine ⟨rfl, ?_⟩
  by_cases hr : s.ref < h.store.length
  · have h1read : (Add h s [x]).1.read s.ref = mapInsert (h.read s.ref) x :=
      read_write_self h _ hr
    have hr1 : s.ref < (Add h s [x]).1.store.length := by
      simpa [Add, write_store_length] using hr
    have h2read : (Add (Add h s [x]).1 s [x]).1.read s.ref
        = mapInsert ((Add h s [x]).1.read s.ref) x :=
      read_write_self _ _ hr1
    have hfix : mapInsert ((Add h s [x]).1.read s.ref) x
        = (Add h s [x]).1.read s.ref := by
      rw [h1read]
      exact mapInsert_of_mem (mem_mapInsert_self _ _)
    simp [Count, h2read, hfix]
  · have hnoop : (Add h s [x]).1 = h.write s.ref (mapInsert (h.read s.ref) x) := rfl
    have h1 : (Add h s [x]).1 = h := by
      rw [hnoop, write_out_of_range h _ hr]
    rw [h1]
    have h2 : (Add h s [x]).1 = h := h1
    simp [Add, Count, write_out_of_range h _ hr]

/-- C10: `Equals` is symmetric on well-formed heaps (every map key list
duplicate-free), although the code checks containment in one direction only
after comparing cardinalities. -/
theorem equals_symmetric (h : Heap T) (a b : GoSet T) (hw : h.WF) :
    Equals h a b = Equals h b a := by
  have key : ∀ u v : GoSet T, Equals h u v = true → Equals h v u = true := by
    intro u v he
    have hnu : (AsList h u).Nodup := read_nodup hw u.ref
    have hnv : (AsList h v).Nodup := read_nodup hw v.ref
    rw [equals_true_iff hnu hnv] at he
    rw [equals_true_iff hnv hnu]
    exact fun x => (he x).symm
  rcases hab : Equals h a b with _ | _ <;> rcases hba : Equals h b a with _ | _
  · rfl
  · have := key b a hba
    rw [hab] at this
    exact this
  · have := key a b hab
    rw [hba] at this
    exact this.symm
  · rfl

/-- C10 witness: symmetry of `Equals` on a concrete two-set heap. -/
theorem equals_symmetric_witness :
    Equals (New (New (⟨[]⟩ : Heap Nat) [1, 2]).1 [2, 3]).1
        (New (⟨[]⟩ : Heap Nat) [1, 2]).2
        (New (New (⟨[]⟩ : Heap Nat) [1, 2]).1 [2, 3]).2
      = Equals (New (New (⟨[]⟩ : Heap Nat) [1, 2]).1 [2, 3]).1
        (New (New (⟨[]⟩ : Heap Nat) [1, 2]).1 [2, 3]).2
        (New (⟨[]⟩ : Heap Nat) [1, 2]).2 :=
  equals_symmetric _ _ _ (by decide)

/-- C4: every derived set produced by `Clone`, `Union`, `Intersect` or
`Minus` from a set built by `NewWithComparator` carries a nil comparator,
so `AsSortedList` on the derived set is the natural-order fallback
`sortComparable`, not the original comparator. -/
theorem derived_sets_drop_comparator [LinearOrder T] (h : Heap T)
    (cmp : T → T → Bool) (ms : List T) (b : GoSet T) (h' : Heap T) :
    ((Clone (NewWithComparator h cmp ms).1 (NewWithComparator h cmp ms).2).2.comparator = none
      ∧ AsSortedList h' (Clone (NewWithComparator h cmp ms).1 (NewWithComparator h cmp ms).2).2
        = sortComparable (AsList h' (Clone (NewWithComparator h cmp ms).1 (NewWithComparator h cmp ms).2).2))
    ∧ ((Union (NewWithComparator h cmp ms).1 (NewWithComparator h cmp ms).2 b).2.comparator = none
      ∧ AsSortedList h' (Union (NewWithComparator h cmp ms).1 (NewWithComparator h cmp ms).2 b).2
        = sortComparable (AsList h' (Union (NewWithComparator h cmp ms).1 (NewWithComparator h cmp ms).2 b).2))
    ∧ ((Intersect (NewWithComparator h cmp ms).1 (NewWithComparator h cmp ms).2 b).2.comparator = none
      ∧ AsSortedList h' (Intersect (NewWithComparator h cmp ms).1 (NewWithComparator h cmp ms).2 b).2
        = sortComparable (AsList h' (Intersect (NewWithComparator h cmp ms).1 (NewWithComparator h cmp ms).2 b).2))
    ∧ ((Minus (NewWithComparator h cmp ms).1 (NewWithComparator h cmp ms).2 b).2.comparator = none
      ∧ AsSortedList h' (Minus (NewWithComparator h cmp ms).1 (NewWithComparator h cmp ms).2 b).2
        = sortComparable (AsList h' (Minus (NewWithComparator h cmp ms).1 (NewWithComparator h cmp ms).2 b).2)) :=
  ⟨⟨rfl, rfl⟩, ⟨rfl, rfl⟩, ⟨rfl, rfl⟩, ⟨rfl, rfl⟩⟩

/-- C1: on a set built by `NewWithComparator` with a valid strict weak
ordering `cmp` (irreflexive, transitive, negatively transitive), the sort
applied by `AsSortedList` to any enumeration of the members returns a
permutation of the set's elements in which `cmp b a` is false for every
pair of adjacent elements `a` before `b`. -/
theorem asSortedList_sorted_by_comparator [LinearOrder T] (h : Heap T)
    (cmp : T → T → Bool) (ms enum : List T)
    (hirr : ∀ a, cmp a a = false)
    (htrans : ∀ a b c, cmp a b = true → cmp b c = true → cmp a c = true)
    (hneg : ∀ a b c, cmp a b = false → cmp b c = false → cmp a c = false)
    (hperm : enum.Perm (AsList (NewWithComparator h cmp ms).1
      (NewWithComparator h cmp ms).2)) :
    (sortEnum (NewWithComparator h cmp ms).2.comparator enum).Perm
      (AsList (NewWithComparator h cmp ms).1 (NewWithComparator h cmp ms).2)
    ∧ List.Chain' (fun a b => cmp b a = false)
      (sortEnum (NewWithComparator h cmp ms).2.comparator enum) := by
  have asym : ∀ a b : T, cmp a b = true → cmp b a = false := by
    intro a b hab
    rcases hba : cmp b a with _ | _
    · rfl
    · exact absurd (htrans a b a hab hba) (by simp [hirr a])
  refine ⟨(List.perm_insertionSort _ enum).trans hperm, ?_⟩
  letI : IsTotal T (fun a b : T => (!(cmp b a)) = true) := ⟨by
    intro a b
    simp only [Bool.not_eq_true']
    rcases hba : cmp b a with _ | _
    · exact Or.inl rfl
    · exact Or.inr (asym b a hba)⟩
  letI : IsTrans T (fun a b : T => (!(cmp b a)) = true) := ⟨by
    intro a b c hab hbc
    simp only [Bool.not_eq_true'] at *
    exact hneg c b a hbc hab⟩
  have hs : List.Sorted (fun a b : T => (!(cmp b a)) = true)
      (List.insertionSort (fun a b : T => (!(cmp b a)) = true) enum) :=
    List.sorted_insertionSort _ enum
  have hc : List.Chain' (fun a b : T => (!(cmp b a)) = true)
      (List.insertionSort (fun a b : T => (!(cmp b a)) = true) enum) :=
    List.Pairwise.chain' hs
  exact List.Chain'.imp (fun a b hab => by simpa using hab) hc

/-- C1 witness: sorting a concrete three-element comparator set. -/
theorem asSortedList_sorted_by_comparator_witness :
    (sortEnum (NewWithComparator (⟨[]⟩ : Heap Nat)
        (fun a b => decide (a < b)) [1, 2, 3]).2.comparator [2, 3, 1]).Perm
      (AsList (NewWithComparator (⟨[]⟩ : Heap Nat)
          (fun a b => decide (a < b)) [1, 2, 3]).1
        (NewWithComparator (⟨[]⟩ : Heap Nat)
          (fun a b => decide (a < b)) [1, 2, 3]).2)
    ∧ List.Chain' (fun a b : Nat => decide (b < a) = false)
      (sortEnum (NewWithComparator (⟨[]⟩ : Heap Nat)
        (fun a b => decide (a < b)) [1, 2, 3]).2.comparator [2, 3, 1]) :=
  asSortedList_sorted_by_comparator (⟨[]⟩ : Heap Nat)
    (fun a b => decide (a < b)) [1, 2, 3] [2, 3, 1]
    (by intro a; simp)
    (by intro a b c hab hbc; simp at *; omega)
    (by intro a b c hab hbc; simp at *; omega)
    (by decide)

/-- C3 counterexample: the claim fails for a set whose comparator reports
ties: with the all-ties comparator the stable sort preserves the
enumeration order, so two legitimate `AsList` enumerations of the same
unmutated two-element set yield different `AsSortedList` results. -/
theorem asSortedList_ties_counterexample :
    ([1, 2] : List Nat).Perm
      (AsList (NewWithComparator (⟨[]⟩ : Heap Nat) (fun _ _ => false) [1, 2]).1
        (NewWithComparator (⟨[]⟩ : Heap Nat) (fun _ _ => false) [1, 2]).2)
    ∧ ([2, 1] : List Nat).Perm
      (AsList (NewWithComparator (⟨[]⟩ : Heap Nat) (fun _ _ => false) [1, 2]).1
        (NewWithComparator (⟨[]⟩ : Heap Nat) (fun _ _ => false) [1, 2]).2)
    ∧ sortEnum (NewWithComparator (⟨[]⟩ : Heap Nat)
        (fun _ _ => false) [1, 2]).2.comparator [1, 2]
      ≠ sortEnum (NewWithComparator (⟨[]⟩ : Heap Nat)
        (fun _ _ => false) [1, 2]).2.comparator [2, 1] := by
  decide

/-- C3 (amended): repeated `AsSortedList` calls on an unmutated set yield
identical sequences regardless of the enumeration order `AsList` produces,
for every set without a custom ordering function, and for comparator sets
whose comparator is a strict total order (never a tie between distinct
elements). -/
theorem asSortedList_deterministic [LinearOrder T] (h : Heap T) (s : GoSet T)
    (l1 l2 : List T)
    (hp1 : l1.Perm (AsList h s)) (hp2 : l2.Perm (AsList h s))
    (hcmp : ∀ cmp, s.comparator = some cmp →
      (∀ a, cmp a a = false)
      ∧ (∀ a b c, cmp a b = true → cmp b c = true → cmp a c = true)
      ∧ (∀ a b : T, a ≠ b → cmp a b = true ∨ cmp b a = true)) :
    sortEnum s.comparator l1 = sortEnum s.comparator l2 := by
  rcases hco : s.comparator with _ | cmp
  · show sortComparable l1 = sortComparable l2
    exact List.eq_of_perm_of_sorted
      ((List.perm_insertionSort _ l1).trans
        (hp1.trans (hp2.symm.trans (List.perm_insertionSort _ l2).symm)))
      (List.sorted_insertionSort _ l1) (List.sorted_insertionSort _ l2)
  · obtain ⟨hirr, htrans, htri⟩ := hcmp cmp hco
    have asym : ∀ a b : T, cmp a b = true → cmp b a = false := by
      intro a b hab
      rcases hba : cmp b a with _ | _
      · rfl
      · exact absurd (htrans a b a hab hba) (by simp [hirr a])
    letI : IsTotal T (fun a b : T => (!(cmp b a)) = true) := ⟨by
      intro a b
      simp only [Bool.not_eq_true']
      rcases hba : cmp b a with _ | _
      · exact Or.inl rfl
      · exact Or.inr (asym b a hba)⟩
    letI : IsTrans T (fun a b : T => (!(cmp b a)) = true) := ⟨by
      intro a b c hab hbc
      simp only [Bool.not_eq_true'] at hab hbc ⊢
      rcases hca : cmp c a with _ | _
      · rfl
      · exfalso
        by_cases hab' : a = b
        · rw [hab'] at hca
          rw [hca] at hbc
          simp at hbc
        · rcases htri a b hab' with hb | hb
          · have hcb := htrans c a b hca hb
            rw [hcb] at hbc
            simp at hbc
          · rw [hb] at hab
            simp at hab⟩
    letI : IsAntisymm T (fun a b : T => (!(cmp b a)) = true) := ⟨by
      intro a b hab hba
      simp only [Bool.not_eq_true'] at hab hba
      by_contra hne
      rcases htri a b hne with hc | hc
      · rw [hc] at hba
        simp at hba
      · rw [hc] at hab
        simp at hab⟩
    exact List.eq_of_perm_of_sorted
      ((List.perm_insertionSort _ l1).trans
        (hp1.trans (hp2.symm.trans (List.perm_insertionSort _ l2).symm)))
      (List.sorted_insertionSort _ l1) (List.sorted_insertionSort _ l2)

/-- C3 witness: two enumerations of a concrete comparator-free set sort to
the same sequence. -/
theorem asSortedList_deterministic_witness :
    sortEnum (New (⟨[]⟩ : Heap Nat) [3, 1, 2]).2.comparator [2, 3, 1]
      = sortEnum (New (⟨[]⟩ : Heap Nat) [3, 1, 2]).2.comparator [1, 2, 3] :=
  asSortedList_deterministic (New (⟨[]⟩ : Heap Nat) [3, 1, 2]).1
    (New (⟨[]⟩ : Heap Nat) [3, 1, 2]).2 [2, 3, 1] [1, 2, 3]
    (by decide) (by decide) (fun cmp hc => nomatch hc)

/-- C5: `Clone()` returns a set that `Equals` the original but has
independent storage: `Add` on the clone changes neither membership
(`Contains`) nor `Count` of the original, and `Add` on the original leaves
the clone untouched. -/
theorem clone_equal_and_independent (h : Heap T) (A : GoSet T)
    (hw : h.WF) (hv : h.valid A) :
    Equals (Clone h A).1 (Clone h A).2 A = true
    ∧ (∀ x y : T, Contains (Add (Clone h A).1 (Clone h A).2 [x]).1 A [y]
        = Contains (Clone h A).1 A [y])
    ∧ (∀ x : T, Count (Add (Clone h A).1 (Clone h A).2 [x]).1 A
        = Count (Clone h A).1 A)
    ∧ (∀ x y : T, Contains (Add (Clone h A).1 A [x]).1 (Clone h A).2 [y]
        = Contains (Clone h A).1 (Clone h A).2 [y])
    ∧ (∀ x : T, Count (Add (Clone h A).1 A [x]).1 (Clone h A).2
        = Count (Clone h A).1 (Clone h A).2) := by
  have hnod : (h.read A.ref).Nodup := read_nodup hw A.ref
  have hne : A.ref ≠ h.store.length := Nat.ne_of_lt hv
  have hLa : AsList (Clone h A).1 A = h.read A.ref := read_append_lt h _ hv
  have hLc : AsList (Clone h A).1 (Clone h A).2 = h.read A.ref := by
    show Heap.read ⟨h.store ++ [insertAll [] (h.read A.ref)]⟩ h.store.length = _
    rw [read_append_self]
    exact insertAll_nil_of_nodup hnod
  have hredA : ∀ x : T, (Add (Clone h A).1 (Clone h A).2 [x]).1.read A.ref
      = (Clone h A).1.read A.ref :=
    fun x => read_write_ne (Clone h A).1 _ hne
  have hredC : ∀ x : T, (Add (Clone h A).1 A [x]).1.read (Clone h A).2.ref
      = (Clone h A).1.read (Clone h A).2.ref :=
    fun x => read_write_ne (Clone h A).1 _ (Ne.symm hne)
  refine ⟨?_, ?_, ?_, ?_, ?_⟩
  · rw [equals_true_iff (by rw [hLc]; exact hnod) (by rw [hLa]; exact hnod)]
    intro x
    rw [hLc, hLa]
  · intro x y
    simp only [Contains, hredA]
  · intro x
    simp only [Count, hredA]
  · intro x y
    simp only [Contains, hredC]
  · intro x
    simp only [Count, hredC]

/-- C5 witness: clone independence on a concrete two-element set. -/
theorem clone_equal_and_independent_witness :
    Equals (Clone (New (⟨[]⟩ : Heap Nat) [1, 2]).1 (New (⟨[]⟩ : Heap Nat) [1, 2]).2).1
      (Clone (New (⟨[]⟩ : Heap Nat) [1, 2]).1 (New (⟨[]⟩ : Heap Nat) [1, 2]).2).2
      (New (⟨[]⟩ : Heap Nat) [1, 2]).2 = true
    ∧ (∀ x y : Nat,
        Contains (Add (Clone (New (⟨[]⟩ : Heap Nat) [1, 2]).1 (New (⟨[]⟩ : Heap Nat) [1, 2]).2).1
            (Clone (New (⟨[]⟩ : Heap Nat) [1, 2]).1 (New (⟨[]⟩ : Heap Nat) [1, 2]).2).2 [x]).1
          (New (⟨[]⟩ : Heap Nat) [1, 2]).2 [y]
        = Contains (Clone (New (⟨[]⟩ : Heap Nat) [1, 2]).1 (New (⟨[]⟩ : Heap Nat) [1, 2]).2).1
          (New (⟨[]⟩ : Heap Nat) [1, 2]).2 [y])
    ∧ (∀ x : Nat,
        Count (Add (Clone (New (⟨[]⟩ : Heap Nat) [1, 2]).1 (New (⟨[]⟩ : Heap Nat) [1, 2]).2).1
            (Clone (New (⟨[]⟩ : Heap Nat) [1, 2]).1 (New (⟨[]⟩ : Heap Nat) [1, 2]).2).2 [x]).1
          (New (⟨[]⟩ : Heap Nat) [1, 2]).2
        = Count (Clone (New (⟨[]⟩ : Heap Nat) [1, 2]).1 (New (⟨[]⟩ : Heap Nat) [1, 2]).2).1
          (New (⟨[]⟩ : Heap Nat) [1, 2]).2)
    ∧ (∀ x y : Nat,
        Contains (Add (Clone (New (⟨[]⟩ : Heap Nat) [1, 2]).1 (New (⟨[]⟩ : Heap Nat) [1, 2]).2).1
            (New (⟨[]⟩ : Heap Nat) [1, 2]).2 [x]).1
          (Clone (New (⟨[]⟩ : Heap Nat) [1, 2]).1 (New (⟨[]⟩ : Heap Nat) [1, 2]).2).2 [y]
        = Contains (Clone (New (⟨[]⟩ : Heap Nat) [1, 2]).1 (New (⟨[]⟩ : Heap Nat) [1, 2]).2).1
          (Clone (New (⟨[]⟩ : Heap Nat) [1, 2]).1 (New (⟨[]⟩ : Heap Nat) [1, 2]).2).2 [y])
    ∧ (∀ x : Nat,
        Count (Add (Clone (New (⟨[]⟩ : Heap Nat) [1, 2]).1 (New (⟨[]⟩ : Heap Nat) [1, 2]).2).1
            (New (⟨[]⟩ : Heap Nat) [1, 2]).2 [x]).1
          (Clone (New (⟨[]⟩ : Heap Nat) [1, 2]).1 (New (⟨[]⟩ : Heap Nat) [1, 2]).2).2
        = Count (Clone (New (⟨[]⟩ : Heap Nat) [1, 2]).1 (New (⟨[]⟩ : Heap Nat) [1, 2]).2).1
          (Clone (New (⟨[]⟩ : Heap Nat) [1, 2]).1 (New (⟨[]⟩ : Heap Nat) [1, 2]).2).2) :=
  clone_equal_and_independent (New (⟨[]⟩ : Heap Nat) [1, 2]).1
    (New (⟨[]⟩ : Heap Nat) [1, 2]).2 (by decide) (by decide)

theorem union_reads (h : Heap T) (a b : GoSet T) (hb : h.valid b) :
    (Union h a b).2 = ⟨h.store.length, none⟩
    ∧ (Union h a b).1.store.length = h.store.length + 1
    ∧ (∀ r, r < h.store.length → (Union h a b).1.read r = h.read r)
    ∧ (Union h a b).1.read h.store.length
        = insertAll (insertAll [] (h.read a.ref)) (h.read b.ref) := by
  have hlen1 : (⟨h.store ++ [insertAll [] (h.read a.ref)]⟩ : Heap T).store.length
      = h.store.length + 1 := by simp
  refine ⟨rfl, ?_, ?_, ?_⟩
  · show ((⟨h.store ++ [insertAll [] (h.read a.ref)]⟩ : Heap T).write
        h.store.length _).store.length = _
    rw [write_store_length, hlen1]
  · intro r hr
    show ((⟨h.store ++ [insertAll [] (h.read a.ref)]⟩ : Heap T).write
        h.store.length _).read r = _
    rw [read_write_ne _ _ (Nat.ne_of_lt hr), read_append_lt h _ hr]
  · show ((⟨h.store ++ [insertAll [] (h.read a.ref)]⟩ : Heap T).write h.store.length
        (insertAll
          (Heap.read ⟨h.store ++ [insertAll [] (h.read a.ref)]⟩ h.store.length)
          (Heap.read ⟨h.store ++ [insertAll [] (h.read a.ref)]⟩ b.ref))).read
        h.store.length = _
    rw [read_write_self _ _ (by rw [hlen1]; exact Nat.lt_succ_self _),
      read_append_self, read_append_lt h _ hb]

/-- C6: union is commutative up to set equality:
`A.Union(B).Equals(B.Union(A))` returns true, evaluated as Go does with the
second union built on the heap left by the first. -/
theorem union_commutative (h : Heap T) (a b : GoSet T)
    (ha : h.valid a) (hb : h.valid b) :
    Equals (Union (Union h a b).1 b a).1 (Union h a b).2
      (Union (Union h a b).1 b a).2 = true := by
  obtain ⟨hu1set, hu1len, hu1reads, hu1new⟩ := union_reads h a b hb
  have ha1 : (Union h a b).1.valid a := by
    show a.ref < _
    rw [hu1len]
    exact Nat.lt_succ_of_lt ha
  obtain ⟨hu2set, hu2len, hu2reads, hu2new⟩ := union_reads (Union h a b).1 b a ha1
  have hreadA : (Union h a b).1.read a.ref = h.read a.ref :=
    hu1reads a.ref ha
  have hreadB : (Union h a b).1.read b.ref = h.read b.ref :=
    hu1reads b.ref hb
  have hm1 : AsList (Union (Union h a b).1 b a).1 (Union h a b).2
      = insertAll (insertAll [] (h.read a.ref)) (h.read b.ref) := by
    show (Union (Union h a b).1 b a).1.read (Union h a b).2.ref = _
    rw [hu1set]
    show (Union (Union h a b).1 b a).1.read h.store.length = _
    rw [hu2reads h.store.length (by rw [hu1len]; exact Nat.lt_succ_self _), hu1new]
  have hm2 : AsList (Union (Union h a b).1 b a).1 (Union (Union h a b).1 b a).2
      = insertAll (insertAll [] (h.read b.ref)) (h.read a.ref) := by
    show (Union (Union h a b).1 b a).1.read (Union (Union h a b).1 b a).2.ref = _
    rw [hu2set]
    show (Union (Union h a b).1 b a).1.read (Union h a b).1.store.length = _
    rw [hu2new, hreadA, hreadB]
  rw [equals_true_iff (by rw [hm1]; exact nodup_insertAll (nodup_insertAll List.nodup_nil))
    (by rw [hm2]; exact nodup_insertAll (nodup_insertAll List.nodup_nil))]
  intro x
  rw [hm1, hm2]
  simp only [mem_insertAll, List.not_mem_nil, false_or]
  tauto

/-- C6 witness: union commutativity on two concrete sets. -/
theorem union_commutative_witness :
    Equals
      (Union (Union (New (New (⟨[]⟩ : Heap Nat) [1, 2]).1 [2, 3]).1
          (New (⟨[]⟩ : Heap Nat) [1, 2]).2
          (New (New (⟨[]⟩ : Heap Nat) [1, 2]).1 [2, 3]).2).1
        (New (New (⟨[]⟩ : Heap Nat) [1, 2]).1 [2, 3]).2
        (New (⟨[]⟩ : Heap Nat) [1, 2]).2).1
      (Union (New (New (⟨[]⟩ : Heap Nat) [1, 2]).1 [2, 3]).1
        (New (⟨[]⟩ : Heap Nat) [1, 2]).2
        (New (New (⟨[]⟩ : Heap Nat) [1, 2]).1 [2, 3]).2).2
      (Union (Union (New (New (⟨[]⟩ : Heap Nat) [1, 2]).1 [2, 3]).1
          (New (⟨[]⟩ : Heap Nat) [1, 2]).2
          (New (New (⟨[]⟩ : Heap Nat) [1, 2]).1 [2, 3]).2).1
        (New (New (⟨[]⟩ : Heap Nat) [1, 2]).1 [2, 3]).2
        (New (⟨[]⟩ : Heap Nat) [1, 2]).2).2 = true :=
  union_commutative (New (New (⟨[]⟩ : Heap Nat) [1, 2]).1 [2, 3]).1
    (New (⟨[]⟩ : Heap Nat) [1, 2]).2
    (New (New (⟨[]⟩ : Heap Nat) [1, 2]).1 [2, 3]).2
    (by decide) (by decide)

theorem minus_loop_read (other d : GoSet T) (hne : other.ref ≠ d.ref) :
    ∀ (L : List T) (hc : Heap T), d.ref < hc.store.length →
      ((L.foldl (fun hh m => if Contains hh other [m] then hh
            else (Add hh d [m]).1) hc).read d.ref
          = L.foldl (fun acc m => if m ∈ hc.read other.ref then acc
            else mapInsert acc m) (hc.read d.ref))
      ∧ (∀ r, r ≠ d.ref →
          (L.foldl (fun hh m => if Contains hh other [m] then hh
            else (Add hh d [m]).1) hc).read r = hc.read r) := by
  intro L
  induction L with
  | nil => exact fun hc _ => ⟨rfl, fun r _ => rfl⟩
  | cons m L ih =>
    intro hc hd
    have hcond : (Contains hc other [m] = true) ↔ m ∈ hc.read other.ref := by
      simp [Contains]
    by_cases hm : m ∈ hc.read other.ref
    · have h1 : (if Contains hc other [m] then hc else (Add hc d [m]).1) = hc :=
        if_pos (hcond.mpr hm)
      have h2 : (if m ∈ hc.read other.ref then hc.read d.ref
          else mapInsert (hc.read d.ref) m) = hc.read d.ref := if_pos hm
      obtain ⟨ihr, ihf⟩ := ih hc hd
      constructor
      · show (L.foldl _ (if Contains hc other [m] then hc else (Add hc d [m]).1)).read d.ref
          = L.foldl _ (if m ∈ hc.read other.ref then hc.read d.ref
            else mapInsert (hc.read d.ref) m)
        rw [h1, h2]
        exact ihr
      · intro r hr
        show (L.foldl _ (if Contains hc other [m] then hc else (Add hc d [m]).1)).read r = _
        rw [h1]
        exact ihf r hr
    · have h1 : (if Contains hc other [m] then hc else (Add hc d [m]).1)
          = hc.write d.ref (mapInsert (hc.read d.ref) m) := by
        rw [if_neg]
        · rfl
        · rw [hcond]
          exact hm
      have h2 : (if m ∈ hc.read other.ref then hc.read d.ref
          else mapInsert (hc.read d.ref) m) = mapInsert (hc.read d.ref) m := if_neg hm
      have hd' : d.ref < (hc.write d.ref (mapInsert (hc.read d.ref) m)).store.length := by
        rw [write_store_length]
        exact hd
      obtain ⟨ihr, ihf⟩ := ih (hc.write d.ref (mapInsert (hc.read d.ref) m)) hd'
      have hother : (hc.write d.ref (mapInsert (hc.read d.ref) m)).read other.ref
          = hc.read other.ref := read_write_ne hc _ hne
      have hdval : (hc.write d.ref (mapInsert (hc.read d.ref) m)).read d.ref
          = mapInsert (hc.read d.ref) m := read_write_self hc _ hd
      constructor
      · show (L.foldl _ (if Contains hc other [m] then hc else (Add hc d [m]).1)).read d.ref
          = L.foldl _ (if m ∈ hc.read other.ref then hc.read d.ref
            else mapInsert (hc.read d.ref) m)
        rw [h1, h2, ihr, hother, hdval]
      · intro r hr
        show (L.foldl _ (if Contains hc other [m] then hc else (Add hc d [m]).1)).read r = _
        rw [h1, ihf r hr, read_write_ne hc _ hr]

theorem fold_mapInsert_filter (Lb : List T) :
    ∀ (L acc : List T), (∀ m ∈ L, m ∉ acc) → L.Nodup →
      L.foldl (fun acc m => if m ∈ Lb then acc else mapInsert acc m) acc
        = acc ++ L.filter (fun m => !(decide (m ∈ Lb))) := by
  intro L
  induction L with
  | nil => simp
  | cons m L ih =>
    intro acc hdis hnod
    by_cases hm : m ∈ Lb
    · show L.foldl _ (if m ∈ Lb then acc else mapInsert acc m) = _
      rw [if_pos hm, ih acc (fun m' hm' => hdis m' (List.mem_cons_of_mem m hm'))
        (List.Nodup.of_cons hnod)]
      simp [List.filter_cons, hm]
    · show L.foldl _ (if m ∈ Lb then acc else mapInsert acc m) = _
      have hma : m ∉ acc := hdis m (List.mem_cons_self m L)
      have hstep : mapInsert acc m = acc ++ [m] := if_neg hma
      rw [if_neg hm, hstep,
        ih (acc ++ [m]) (fun m' hm' => by
          simp only [List.mem_append, List.mem_singleton]
          rintro (hin | rfl)
          · exact hdis m' (List.mem_cons_of_mem m hm') hin
          · exact (List.nodup_cons.mp hnod).1 hm')
          (List.Nodup.of_cons hnod)]
      simp [List.filter_cons, hm]

/-- C7: `Minus(other)` returns a fresh set containing exactly the elements
contained in the receiver but not in `other`, and leaves both input sets
unchanged; in particular the ken/honda/ryu scenario from the spec holds. -/
theorem minus_difference_spec (h : Heap T) (a b : GoSet T)
    (hw : h.WF) (ha : h.valid a) (hb : h.valid b) :
    (∀ x : T, Contains (Minus h a b).1 (Minus h a b).2 [x]
        = (Contains h a [x] && !(Contains h b [x])))
    ∧ AsList (Minus h a b).1 a = AsList h a
    ∧ AsList (Minus h a b).1 b = AsList h b
    ∧ Equals
        (New (Minus
          (New (New (⟨[]⟩ : Heap String) ["ken", "honda", "ryu"]).1
            ["honda", "chun-li", "cammy"]).1
          (New (⟨[]⟩ : Heap String) ["ken", "honda", "ryu"]).2
          (New (New (⟨[]⟩ : Heap String) ["ken", "honda", "ryu"]).1
            ["honda", "chun-li", "cammy"]).2).1 ["ken", "ryu"]).1
        (Minus
          (New (New (⟨[]⟩ : Heap String) ["ken", "honda", "ryu"]).1
            ["honda", "chun-li", "cammy"]).1
          (New (⟨[]⟩ : Heap String) ["ken", "honda", "ryu"]).2
          (New (New (⟨[]⟩ : Heap String) ["ken", "honda", "ryu"]).1
            ["honda", "chun-li", "cammy"]).2).2
        (New (Minus
          (New (New (⟨[]⟩ : Heap String) ["ken", "honda", "ryu"]).1
            ["honda", "chun-li", "cammy"]).1
          (New (⟨[]⟩ : Heap String) ["ken", "honda", "ryu"]).2
          (New (New (⟨[]⟩ : Heap String) ["ken", "honda", "ryu"]).1
            ["honda", "chun-li", "cammy"]).2).1 ["ken", "ryu"]).2 = true := by
  have hbne : b.ref ≠ h.store.length := Nat.ne_of_lt hb
  have hd : h.store.length < (⟨h.store ++ [insertAll ([] : List T) []]⟩ : Heap T).store.length := by
    simp
  obtain ⟨hloopr, hloopf⟩ :=
    minus_loop_read b (⟨h.store.length, none⟩ : GoSet T) hbne (AsList h a)
      ⟨h.store ++ [insertAll ([] : List T) []]⟩ hd
  have hreadd : Heap.read ⟨h.store ++ [insertAll ([] : List T) []]⟩
      (⟨h.store.length, none⟩ : GoSet T).ref = ([] : List T) := read_append_self h _
  have hreadb : Heap.read ⟨h.store ++ [insertAll ([] : List T) []]⟩ b.ref
      = h.read b.ref := read_append_lt h _ hb
  have hna : (AsList h a).Nodup := read_nodup hw a.ref
  have hmembers : (Minus h a b).1.read (Minus h a b).2.ref
      = (h.read a.ref).filter (fun m => !(decide (m ∈ h.read b.ref))) := by
    have h1 := hloopr
    rw [hreadb, hreadd] at h1
    rw [fold_mapInsert_filter (h.read b.ref) (AsList h a) [] (by simp) hna] at h1
    exact h1
  refine ⟨?_, ?_, ?_, by decide⟩
  · intro x
    by_cases hx1 : x ∈ h.read a.ref <;> by_cases hx2 : x ∈ h.read b.ref <;>
      simp [Contains, hmembers, List.mem_filter, hx1, hx2]
  · exact (hloopf a.ref (Nat.ne_of_lt ha)).trans (read_append_lt h _ ha)
  · exact (hloopf b.ref hbne).trans (read_append_lt h _ hb)

/-- C7 witness: the difference law on a concrete pair of sets. -/
theorem minus_difference_spec_witness :
    (∀ x : Nat,
      Contains (Minus (New (New (⟨[]⟩ : Heap Nat) [1, 2]).1 [2, 3]).1
          (New (⟨[]⟩ : Heap Nat) [1, 2]).2
          (New (New (⟨[]⟩ : Heap Nat) [1, 2]).1 [2, 3]).2).1
        (Minus (New (New (⟨[]⟩ : Heap Nat) [1, 2]).1 [2, 3]).1
          (New (⟨[]⟩ : Heap Nat) [1, 2]).2
          (New (New (⟨[]⟩ : Heap Nat) [1, 2]).1 [2, 3]).2).2 [x]
        = (Contains (New (New (⟨[]⟩ : Heap Nat) [1, 2]).1 [2, 3]).1
            (New (⟨[]⟩ : Heap Nat) [1, 2]).2 [x]
          && !(Contains (New (New (⟨[]⟩ : Heap Nat) [1, 2]).1 [2, 3]).1
            (New (New (⟨[]⟩ : Heap Nat) [1, 2]).1 [2, 3]).2 [x])))
    ∧ AsList (Minus (New (New (⟨[]⟩ : Heap Nat) [1, 2]).1 [2, 3]).1
        (New (⟨[]⟩ : Heap Nat) [1, 2]).2
        (New (New (⟨[]⟩ : Heap Nat) [1, 2]).1 [2, 3]).2).1
        (New (⟨[]⟩ : Heap Nat) [1, 2]).2
      = AsList (New (New (⟨[]⟩ : Heap Nat) [1, 2]).1 [2, 3]).1
        (New (⟨[]⟩ : Heap Nat) [1, 2]).2
    ∧ AsList (Minus (New (New (⟨[]⟩ : Heap Nat) [1, 2]).1 [2, 3]).1
        (New (⟨[]⟩ : Heap Nat) [1, 2]).2
        (New (New (⟨[]⟩ : Heap Nat) [1, 2]).1 [2, 3]).2).1
        (New (New (⟨[]⟩ : Heap Nat) [1, 2]).1 [2, 3]).2
      = AsList (New (New (⟨[]⟩ : Heap Nat) [1, 2]).1 [2, 3]).1
        (New (New (⟨[]⟩ : Heap Nat) [1, 2]).1 [2, 3]).2
    ∧ Equals
        (New (Minus
          (New (New (⟨[]⟩ : Heap String) ["ken", "honda", "ryu"]).1
            ["honda", "chun-li", "cammy"]).1
          (New (⟨[]⟩ : Heap String) ["ken", "honda", "ryu"]).2
          (New (New (⟨[]⟩ : Heap String) ["ken", "honda", "ryu"]).1
            ["honda", "chun-li", "cammy"]).2).1 ["ken", "ryu"]).1
        (Minus
          (New (New (⟨[]⟩ : Heap String) ["ken", "honda", "ryu"]).1
            ["honda", "chun-li", "cammy"]).1
          (New (⟨[]⟩ : Heap String) ["ken", "honda", "ryu"]).2
          (New (New (⟨[]⟩ : Heap String) ["ken", "honda", "ryu"]).1
            ["honda", "chun-li", "cammy"]).2).2
        (New (Minus
          (New (New (⟨[]⟩ : Heap String) ["ken", "honda", "ryu"]).1
            ["honda", "chun-li", "cammy"]).1
          (New (⟨[]⟩ : Heap String) ["ken", "honda", "ryu"]).2
          (New (New (⟨[]⟩ : Heap String) ["ken", "honda", "ryu"]).1
            ["honda", "chun-li", "cammy"]).2).1 ["ken", "ryu"]).2 = true :=
  minus_difference_spec (New (New (⟨[]⟩ : Heap Nat) [1, 2]).1 [2, 3]).1
    (New (⟨[]⟩ : Heap Nat) [1, 2]).2
    (New (New (⟨[]⟩ : Heap Nat) [1, 2]).1 [2, 3]).2
    (by decide) (by decide) (by decide)

theorem asList_scenario :
    AsList (New (⟨[]⟩ : Heap String) ["ryu", "ken", "balrog", "cammy"]).1
      (New (⟨[]⟩ : Heap String) ["ryu", "ken", "balrog", "cammy"]).2
      = ["ryu", "ken", "balrog", "cammy"] := by decide

theorem asSortedList_scenario :
    AsSortedList (New (⟨[]⟩ : Heap String) ["ryu", "ken", "balrog", "cammy"]).1
      (New (⟨[]⟩ : Heap String) ["ryu", "ken", "balrog", "cammy"]).2
      = ["balrog", "cammy", "ken", "ryu"] := by
  show sortComparable (AsList (New (⟨[]⟩ : Heap String) ["ryu", "ken", "balrog", "cammy"]).1
    (New (⟨[]⟩ : Heap String) ["ryu", "ken", "balrog", "cammy"]).2) = _
  rw [asList_scenario]
  show List.insertionSort (· ≤ ·) ["ryu", "ken", "balrog", "cammy"] = _
  simp only [List.insertionSort, List.orderedInsert, String.le_iff_toList_le]
  decide

theorem setString_scenario_eval :
    SetString (New (⟨[]⟩ : Heap String) ["ryu", "ken", "balrog", "cammy"]).1
      (New (⟨[]⟩ : Heap String) ["ryu", "ken", "balrog", "cammy"]).2
      = "goset.Set[string]{balrog, cammy, ken, ryu}" := by
  show stringTypeTag ++ "\x7b" ++ renderMembers
    (AsSortedList (New (⟨[]⟩ : Heap String) ["ryu", "ken", "balrog", "cammy"]).1
      (New (⟨[]⟩ : Heap String) ["ryu", "ken", "balrog", "cammy"]).2) ++ "\x7d" = _
  rw [asSortedList_scenario]
  rfl

/-- C2 counterexample: `String()` on `New("ryu","ken","balrog","cammy")`
does not return the spec's text `Set<string>{balrog, cammy, ken, ryu}`. -/
theorem setString_not_spec_text :
    SetString (New (⟨[]⟩ : Heap String) ["ryu", "ken", "balrog", "cammy"]).1
      (New (⟨[]⟩ : Heap String) ["ryu", "ken", "balrog", "cammy"]).2
      ≠ "Set<string>{balrog, cammy, ken, ryu}" := by
  rw [setString_scenario_eval]
  decide

/-- C2 (amended): `String()` on `New("ryu","ken","balrog","cammy")` returns
exactly `goset.Set[string]{balrog, cammy, ken, ryu}`: Go's `%T` type tag
`goset.Set[string]` followed by a brace-delimited, comma-space-separated
rendering of `AsSortedList()` with no trailing comma. -/
theorem setString_scenario :
    SetString (New (⟨[]⟩ : Heap String) ["ryu", "ken", "balrog", "cammy"]).1
      (New (⟨[]⟩ : Heap String) ["ryu", "ken", "balrog", "cammy"]).2
      = stringTypeTag ++ "\x7b"
        ++ renderMembers ["balrog", "cammy", "ken", "ryu"] ++ "\x7d"
    ∧ stringTypeTag ++ "\x7b" ++ renderMembers ["balrog", "cammy", "ken", "ryu"] ++ "\x7d"
      = "goset.Set[string]{balrog, cammy, ken, ryu}" :=
  ⟨setString_scenario_eval, rfl⟩

end Goset
